import Mathlib

/-!
Verification development for the mofa-org/studio streaming text segmenter
(`dora-text-segmenter`).  The definitions below are a shallow embedding of
`multi_participant_segmenter.py` (conference mode) and
`queue_based_segmenter.py` (single mode): text is modelled as `List Char`,
the per-event handlers as pure state-transition functions returning the
list of segments emitted on the `text_segment` output ports, and the one
place the conference code can raise (a missing-key read in the
`audio_complete` handler) as an `Option` result.
-/

namespace Studio

abbrev Chars := List Char

/-- Whitespace predicate matching Python `str.strip` / `str.isspace` for the
ASCII whitespace characters (space, tab, newline, carriage return, vertical
tab, form feed). -/
def isWs (c : Char) : Bool :=
  c = ' ' || c = '\t' || c = '\n' || c = '\r' || c = Char.ofNat 11 || c = Char.ofNat 12

/-- Python `str.strip()`: drop whitespace from both ends. -/
def trim (l : Chars) : Chars :=
  ((l.dropWhile isWs).reverse.dropWhile isWs).reverse

/-- Scanner for the regex `[^P]+[P]` used by `segment_by_punctuation` in both
segmenter files: returns the list of non-overlapping matches (each a maximal
run of non-terminator characters followed by one terminator) together with
the text after the end of the last match (`text[last_end:]`).
`rcur` is the reversed current non-terminator run, `rpend` the reversed text
seen since the end of the last match, `racc` the reversed list of matches. -/
def scanAux (punct : Chars) : Chars → Chars → Chars → List Chars → List Chars × Chars
  | [], _, rpend, racc => (racc.reverse, rpend.reverse)
  | c :: cs, rcur, rpend, racc =>
    if punct.contains c then
      if rcur.isEmpty then
        scanAux punct cs [] (c :: rpend) racc
      else
        scanAux punct cs [] [] ((rcur.reverse ++ [c]) :: racc)
    else
      scanAux punct cs (c :: rcur) (c :: rpend) racc

/-- All matches of `[^P]+[P]` in `text`, and the suffix after the last match. -/
def scanRuns (punct : Chars) (text : Chars) : List Chars × Chars :=
  scanAux punct text [] [] []

/-- One iteration of the accumulator loop of `segment_by_punctuation`
(identical in both segmenter files).  State is `(segments, accumulator)`. -/
def segStep (maxLen : Int) (st : List Chars × Chars) (m : Chars) : List Chars × Chars :=
  let s := trim m
  if s.isEmpty then st
  else
    let segs := st.1
    let accum := st.2
    let combined := accum ++ s
    if maxLen > 0 && (combined.length : Int) > maxLen then
      if accum.isEmpty then (segs ++ [s], [])
      else (segs ++ [accum], s)
    else (segs, combined)

/-- `segment_by_punctuation(text, ..., max_length, punctuation_marks, ...)`
from both segmenter files.  Returns `(complete_segments, incomplete_text)`.
The `min_length` parameter of the Python function is never read by its body
and is omitted.  The third Python return value is `bool(incomplete)` in the
conference file and `False` in the single-mode file; both callers reduce it
to the same buffer update, so it is not returned here. -/
def segmentByPunct (punct : Chars) (maxLen : Int) (text : Chars) : List Chars × Chars :=
  if text.isEmpty then ([], [])
  else
    let ms := (scanRuns punct text).1
    let suffix := (scanRuns punct text).2
    let st := ms.foldl (segStep maxLen) ([], [])
    let segs := if st.2.isEmpty then st.1 else st.1 ++ [st.2]
    (segs, trim suffix)

/-- `should_skip_segment` from `multi_participant_segmenter.py`: skip when the
stripped text is empty or every character is a configured mark or whitespace. -/
def shouldSkipConf (punct : Chars) (t : Chars) : Bool :=
  (trim t).isEmpty || t.all (fun c => punct.contains c || isWs c)

/-- `should_skip_segment` from `queue_based_segmenter.py`: skip when the
stripped text is empty or consists solely of whitespace, digits and
configured marks (the regex `^[\s\d P]+$` applied to the stripped text). -/
def shouldSkipSingle (punct : Chars) (t : Chars) : Bool :=
  (trim t).isEmpty || (trim t).all (fun c => isWs c || c.isDigit || punct.contains c)

/-- `remove_speaker_id`: remove a single leading `[speaker]` bracket group
followed by optional whitespace (regex `^\[[^\]]+\]\s*`, identical effect in
both files). -/
def removeSpeakerId (t : Chars) : Chars :=
  match t with
  | '[' :: rest =>
    let inner := rest.takeWhile (fun c => c ≠ ']')
    match rest.dropWhile (fun c => c ≠ ']') with
    | ']' :: rest2 => if inner.isEmpty then t else rest2.dropWhile isWs
    | _ => t
  | _ => t

/-! ## Conference mode: `multi_participant_segmenter.py` -/

/-- A queued segment (`segment_queues[participant]` entry). -/
structure Segment where
  text : Chars
  sessionId : Nat
  isSessionEnd : Bool
  questionId : Option String
  sessionStatus : String
deriving DecidableEq, Repr

/-- A `session_timestamps[participant]` entry.  `uuid4` session ids are
modelled by a fresh counter; `time.time()` by the timestamp carried on the
SESSION_START event (arrival time). -/
structure SessionMarker where
  sessionId : Nat
  timestamp : Nat
  questionId : Option String
  sessionStatus : String
deriving DecidableEq, Repr

/-- Per-participant state: the six per-participant dicts of the conference
segmenter, bundled (all are created together by
`ensure_participant_initialized`). -/
structure PState where
  queue : List Segment
  tailBuf : Chars
  sessions : List SessionMarker
  currentSession : Option Nat
  sending : Bool
  lastEndSent : Bool
deriving DecidableEq, Repr

def PState.init : PState := ⟨[], [], [], none, false, false⟩

/-- Global conference state.  `parts` is the association list of discovered
participants in discovery order (`participant_names` plus the per-participant
dicts); `nextSid` models the supply of fresh session ids. -/
structure ConfState where
  parts : List (String × PState)
  active : Option String
  paused : Bool
  fill : Int
  nextSid : Nat
deriving DecidableEq, Repr

def ConfState.init : ConfState := ⟨[], none, false, 0, 0⟩

/-- Conference configuration (environment variables read at startup).
`MIN_SEGMENT_LENGTH` is passed to `segment_by_punctuation` but never read by
it, so it is not part of the model. -/
structure ConfCfg where
  punct : Chars
  maxLen : Int
  removeSpeaker : Bool
  lowWater : Int
  highWater : Int
deriving Repr

/-- A value sent on a `text_segment_<participant>` output port. -/
structure CEmission where
  port : String
  text : Chars
  sessionId : Nat
  questionId : Option String
  sessionStatus : String
deriving DecidableEq, Repr

/-- Dictionary read `d[p]` over the bundled participant map. -/
def findPart : List (String × PState) → String → Option PState
  | [], _ => none
  | (n, st) :: rest, p => if n = p then some st else findPart rest p

/-- Dictionary write `d[p] = st` for an existing participant. -/
def setPart : List (String × PState) → String → PState → List (String × PState)
  | [], _, _ => []
  | e :: rest, p, st =>
    if e.1 = p then (p, st) :: setPart rest p st else e :: setPart rest p st

/-- `ensure_participant_initialized`. -/
def ensureInit (s : ConfState) (p : String) : ConfState :=
  match findPart s.parts p with
  | some _ => s
  | none => { s with parts := s.parts ++ [(p, PState.init)] }

/-- `is_participant_port`. -/
def isParticipantPort (id : String) : Bool :=
  !(id = "control" || id = "reset" || id = "audio_buffer_control" || id = "audio_complete")
    && !(("tts_complete_".toList).isPrefixOf id.toList)

/-- Candidate list of `select_oldest_session_queue`: participants (in
discovery order) with a non-empty session deque and a non-empty segment
queue, paired with their oldest session timestamp. -/
def candidatesOf (parts : List (String × PState)) : List (String × Nat) :=
  parts.filterMap (fun e =>
    match e.2.sessions with
    | [] => none
    | m :: _ => if e.2.queue.isEmpty then none else some (e.1, m.timestamp))

/-- Stable insertion (earlier elements stay in front of equal keys), so that
`sortByTs` computes the same list as Python's stable `list.sort(key=ts)`. -/
def insertByTs (x : String × Nat) : List (String × Nat) → List (String × Nat)
  | [] => [x]
  | y :: ys => if x.2 ≤ y.2 then x :: y :: ys else y :: insertByTs x ys

def sortByTs (l : List (String × Nat)) : List (String × Nat) :=
  l.foldr insertByTs []

/-- `select_oldest_session_queue`: stable-sort the candidates by timestamp
and return the first. -/
def selectOldest (parts : List (String × PState)) : Option String :=
  (sortByTs (candidatesOf parts)).head?.map (fun c => c.1)

/-- `kick_start_sending`: pop and emit the head of the queue, set the sending
flag.  Note that (unlike the other two send sites) it does not update
`last_session_end_sent`. -/
def kickStart (s : ConfState) (p : String) : ConfState × List CEmission :=
  match findPart s.parts p with
  | none => (s, [])
  | some st =>
    match st.queue with
    | [] => (s, [])
    | seg :: rest =>
      ({ s with parts := setPart s.parts p { st with queue := rest, sending := true } },
       [⟨"text_segment_" ++ p, seg.text, seg.sessionId, seg.questionId, seg.sessionStatus⟩])

/-- `send_next_segment_for_participant` (the immediate-resume send): pop and
emit the head of the queue, set the sending flag, and record
`last_session_end_sent` when the segment closes its session. -/
def sendNextFor (s : ConfState) (p : String) : ConfState × List CEmission :=
  match findPart s.parts p with
  | none => (s, [])
  | some st =>
    match st.queue with
    | [] => (s, [])
    | seg :: rest =>
      let st2 := { st with queue := rest, sending := true,
                           lastEndSent := if seg.isSessionEnd then true else st.lastEndSent }
      ({ s with parts := setPart s.parts p st2 },
       [⟨"text_segment_" ++ p, seg.text, seg.sessionId, seg.questionId, seg.sessionStatus⟩])

/-- `try_activate_queue`. -/
def tryActivate (s : ConfState) : ConfState × List CEmission :=
  match s.active with
  | some _ => (s, [])
  | none =>
    match selectOldest s.parts with
    | none => (s, [])
    | some p => kickStart { s with active := some p } p

/-- `complete_session_and_activate_next`. -/
def completeSession (s : ConfState) (p : String) : ConfState × List CEmission :=
  let s1 :=
    match findPart s.parts p with
    | some st => { s with parts := setPart s.parts p { st with sessions := st.sessions.tail } }
    | none => s
  let s2 := { s1 with active := none }
  match selectOldest s2.parts with
  | none => (s2, [])
  | some q => kickStart { s2 with active := some q } q

/-- `handle_audio_buffer_control`. -/
def handleBufferCtl (cfg : ConfCfg) (s : ConfState) (pct : Int) : ConfState × List CEmission :=
  let s1 := { s with fill := pct }
  if pct > cfg.highWater && !s1.paused then
    ({ s1 with paused := true }, [])
  else if pct < cfg.lowWater && s1.paused then
    let s2 := { s1 with paused := false }
    match s2.active with
    | none => (s2, [])
    | some a =>
      match findPart s2.parts a with
      | none => (s2, [])
      | some st => if st.queue.isEmpty then (s2, []) else sendNextFor s2 a
  else (s1, [])

/-- Append the non-skippable `segs` to a queue, each tagged with the current
session id and the question id / status of the last session marker (the
enqueue loops of the SESSION_START and SESSION_CHUNK handlers). -/
def enqueueSegs (punct : Chars) (sid : Nat) (qid : Option String) (status : String)
    (segs : List Chars) (q : List Segment) : List Segment :=
  q ++ (segs.filter (fun t => !shouldSkipConf punct t)).map
    (fun t => ⟨t, sid, false, qid, status⟩)

/-- Set `is_session_end` on the last queued segment (SESSION_END with empty
tail buffer). -/
def markLastEnd : List Segment → List Segment
  | [] => []
  | [x] => [{ x with isSessionEnd := true }]
  | x :: xs => x :: markLastEnd xs

/-- SESSION_START branch of the participant-text handler. -/
def handleStart (cfg : ConfCfg) (s0 : ConfState) (p : String) (text : Chars)
    (qid : Option String) (ts : Nat) : ConfState × List CEmission :=
  let s := ensureInit s0 p
  let st := (findPart s.parts p).getD PState.init
  let sid := s.nextSid
  let marker : SessionMarker := ⟨sid, ts, qid, "started"⟩
  let st := { st with sessions := st.sessions ++ [marker], currentSession := some sid }
  let text1 := if cfg.removeSpeaker then removeSpeakerId text else text
  let res := segmentByPunct cfg.punct cfg.maxLen (st.tailBuf ++ text1)
  let st := { st with tailBuf := res.2,
                      queue := enqueueSegs cfg.punct sid qid "started" res.1 st.queue }
  let s := { s with parts := setPart s.parts p st, nextSid := s.nextSid + 1 }
  tryActivate s

/-- SESSION_CHUNK branch of the participant-text handler. -/
def handleChunk (cfg : ConfCfg) (s0 : ConfState) (p : String) (text : Chars) :
    ConfState × List CEmission :=
  let s := ensureInit s0 p
  let st := (findPart s.parts p).getD PState.init
  match st.currentSession with
  | none => (s, [])
  | some sid =>
    let text1 := if cfg.removeSpeaker then removeSpeakerId text else text
    let res := segmentByPunct cfg.punct cfg.maxLen (st.tailBuf ++ text1)
    let lastM := st.sessions.getLast?
    let qid := (lastM.map (fun m => m.questionId)).getD none
    let status := (lastM.map (fun m => m.sessionStatus)).getD "started"
    let st := { st with tailBuf := res.2,
                        queue := enqueueSegs cfg.punct sid qid status res.1 st.queue }
    tryActivate { s with parts := setPart s.parts p st }

/-- SESSION_END branch of the participant-text handler. -/
def handleSessionEnd (cfg : ConfCfg) (s0 : ConfState) (p : String) : ConfState × List CEmission :=
  let s := ensureInit s0 p
  let st := (findPart s.parts p).getD PState.init
  match st.currentSession with
  | none => (s, [])
  | some sid =>
    let lastM := st.sessions.getLast?
    let qid := (lastM.map (fun m => m.questionId)).getD none
    let status := (lastM.map (fun m => m.sessionStatus)).getD "ended"
    let st :=
      if (trim st.tailBuf).isEmpty then
        { st with queue := markLastEnd st.queue }
      else
        let inc := trim st.tailBuf
        let st1 :=
          if shouldSkipConf cfg.punct inc then st
          else { st with queue := st.queue ++ [⟨inc, sid, true, qid, status⟩] }
        { st1 with tailBuf := [] }
    let st := { st with currentSession := none }
    tryActivate { s with parts := setPart s.parts p st }

/-- The `audio_complete` handler.  Python writes `is_sending[p] = False`
(a dict insert-or-update) and then reads `last_session_end_sent[p]`, which
raises `KeyError` for a participant that was never discovered; that raise is
modelled as `none`. -/
def handleAudioComplete (s : ConfState) (p? : Option String) :
    Option (ConfState × List CEmission) :=
  match p? with
  | none => some (s, [])
  | some p =>
    if p = "" then some (s, [])
    else
      match findPart s.parts p with
      | none => none
      | some st =>
        let st := { st with sending := false }
        let s := { s with parts := setPart s.parts p st }
        if st.lastEndSent && s.active = some p then
          let r := completeSession s p
          let s2 := r.1
          let s3 :=
            match findPart s2.parts p with
            | some st2 => { s2 with parts := setPart s2.parts p { st2 with lastEndSent := false } }
            | none => s2
          some (s3, r.2)
        else if ¬ (s.active = some p) then some (s, [])
        else if s.paused then some (s, [])
        else
          match st.queue with
          | [] => some (s, [])
          | seg :: rest =>
            let st2 := { st with queue := rest, sending := true,
                                 lastEndSent := if seg.isSessionEnd then true else st.lastEndSent }
            some ({ s with parts := setPart s.parts p st2 },
                  [⟨"text_segment_" ++ p, seg.text, seg.sessionId, seg.questionId,
                    seg.sessionStatus⟩])

/-- Keep-predicate of the smart (correlation-id) reset. -/
def keepSeg (c : String) (sg : Segment) : Bool :=
  sg.questionId = some c || sg.questionId = none

/-- Per-participant effect of the smart reset: filter the queue by
correlation id, and clear the tail buffer and sending flag when at least one
segment was discarded. -/
def smartResetPart (c : String) (st : PState) : PState :=
  let cleared := st.queue.countP (fun sg => !keepSeg c sg)
  { st with queue := st.queue.filter (keepSeg c),
            tailBuf := if cleared > 0 then [] else st.tailBuf,
            sending := if cleared > 0 then false else st.sending }

/-- The reset/cancel handler body of the conference `main` loop. -/
def applyReset (s : ConfState) (qid : Option String) : ConfState :=
  match qid with
  | none =>
    { s with parts := s.parts.map (fun e => (e.1, PState.init)),
             active := none, paused := false, fill := 0 }
  | some c =>
    { s with parts := s.parts.map (fun e => (e.1, smartResetPart c e.2)),
             active := none, paused := false, fill := 0 }

/-- One inbound event of the conference node.  Classification in the source
is by port name; the reserved ports and the participant text ports are
disjoint, which the tagged type mirrors (`ptext` is additionally guarded by
`isParticipantPort`). -/
inductive CEvent where
  | ptext (port : String) (text : Chars) (status : Option String)
      (questionId : Option String) (ts : Nat)
  | audioComplete (participant : Option String)
  | bufferTelemetry (pct : Option Int)
  | control (cmd : Option String) (questionId : Option String)
deriving DecidableEq, Repr

/-- One iteration of the conference event loop.  `none` models the
uncaught `KeyError` of the `audio_complete` handler. -/
def stepC (cfg : ConfCfg) (s : ConfState) : CEvent → Option (ConfState × List CEmission)
  | .ptext port text status qid ts =>
    if isParticipantPort port then
      if status = some "started" then some (handleStart cfg s port text qid ts)
      else if status = some "ended" then some (handleSessionEnd cfg s port)
      else some (handleChunk cfg s port text)
    else some (s, [])
  | .audioComplete p? => handleAudioComplete s p?
  | .bufferTelemetry none => some (s, [])
  | .bufferTelemetry (some pct) => some (handleBufferCtl cfg s pct)
  | .control cmd qid =>
    if cmd = some "reset" || cmd = some "cancel" then some (applyReset s qid, [])
    else some (s, [])

/-- Run the conference loop over a list of events, collecting emissions. -/
def runC (cfg : ConfCfg) (s : ConfState) : List CEvent → Option (ConfState × List CEmission)
  | [] => some (s, [])
  | e :: es =>
    (stepC cfg s e).bind fun r =>
      (runC cfg r.1 es).map fun r2 => (r2.1, r.2 ++ r2.2)

/-! ## Single mode: `queue_based_segmenter.py` -/

/-- The metadata fields of a single-mode text event that the segmenter
reads or forwards. -/
structure SMeta where
  questionId : Option String
  sessionStatus : Option String
deriving DecidableEq, Repr

def SMeta.empty : SMeta := ⟨none, none⟩

/-- A queued single-mode segment. -/
structure SSeg where
  text : Chars
  meta : SMeta
deriving DecidableEq, Repr

/-- A value sent on the single-mode `text_segment` output port. -/
structure SEmission where
  text : Chars
  meta : SMeta
deriving DecidableEq, Repr

/-- Single-mode node state. -/
structure SingleState where
  queue : List SSeg
  sending : Bool
  buffer : Chars
  pendingEnd : Bool
  pendingEndMeta : SMeta
  currentQid : Option String
deriving DecidableEq, Repr

def SingleState.init : SingleState := ⟨[], false, [], false, SMeta.empty, none⟩

/-- Single-mode configuration.  `ENABLE_BACKPRESSURE` and
`MIN_SEGMENT_LENGTH` are read at startup but never used by the event loop. -/
structure SingleCfg where
  punct : Chars
  maxLen : Int
  removeSpeaker : Bool
deriving Repr

/-- Set `session_status` to `"ended"` on the last queued segment. -/
def markLastEnded : List SSeg → List SSeg
  | [] => []
  | [x] => [{ x with meta := { x.meta with sessionStatus := some "ended" } }]
  | x :: xs => x :: markLastEnded xs

/-- Pop and emit the head of the queue (marking the TTS busy), or do nothing
when the queue is empty: the `if segment_queue: popleft / send` idiom of the
single-mode handler. -/
def sendHead (s : SingleState) : SingleState × List SEmission :=
  match s.queue with
  | [] => (s, [])
  | sg :: rest => ({ s with queue := rest, sending := true }, [⟨sg.text, sg.meta⟩])

/-- Flush the non-empty stripped buffer as a final ended segment. -/
def endedFlush (s0 : SingleState) (meta : SMeta) : SingleState :=
  if (trim s0.buffer).isEmpty then s0
  else
    { s0 with
      queue := s0.queue ++ [⟨trim s0.buffer, { meta with sessionStatus := some "ended" }⟩],
      buffer := [] }

/-- The send-or-defer step at the end of the ended block: send now when
idle, or record the pending session end when the TTS is busy and the queue
is empty. -/
def endedDispatch (s2 : SingleState) (meta : SMeta) : SingleState × List SEmission :=
  if !s2.sending then sendHead s2
  else if s2.queue.isEmpty then
    ({ s2 with pendingEnd := true, pendingEndMeta := meta }, [])
  else (s2, [])

/-- The `session_status == "ended"` block at the top of the single-mode text
handler: flush the buffer as an ended segment, mark the last queued segment
ended, then send or defer. -/
def endedPhase (s0 : SingleState) (meta : SMeta) : SingleState × List SEmission :=
  let s1 := endedFlush s0 meta
  endedDispatch { s1 with queue := markLastEnded s1.queue } meta

/-- Track the incoming question id (`current_question_id` update). -/
def updateQid (s : SingleState) (meta : SMeta) : SingleState :=
  match meta.questionId with
  | some q => { s with currentQid := some q }
  | none => s

/-- Segmentation of buffer plus new text, buffer update (standalone
punctuation is discarded) and enqueueing of non-skippable segments. -/
def ingestText (cfg : SingleCfg) (s : SingleState) (text : Chars) (meta : SMeta) :
    SingleState :=
  let text1 := if cfg.removeSpeaker then removeSpeakerId text else text
  let res := segmentByPunct cfg.punct cfg.maxLen (s.buffer ++ text1)
  { s with
    buffer :=
      if res.2.isEmpty then ([] : Chars)
      else if shouldSkipSingle cfg.punct res.2 then [] else res.2,
    queue := s.queue ++
      (res.1.filter (fun t => !shouldSkipSingle cfg.punct t)).map
        (fun t => (⟨t, meta⟩ : SSeg)) }

/-- The ordinary text-processing part of the single-mode text handler:
speaker-id removal, question-id tracking, segmentation, enqueueing, and the
idle-send. -/
def normalPhase (cfg : SingleCfg) (s0 : SingleState) (text : Chars) (meta : SMeta) :
    SingleState × List SEmission :=
  let s2 := ingestText cfg (updateQid s0 meta) text meta
  if !s2.sending then sendHead s2 else (s2, [])

/-- The single-mode `text` input handler. -/
def handleText (cfg : SingleCfg) (s : SingleState) (text : Chars) (meta : SMeta) :
    SingleState × List SEmission :=
  if meta.sessionStatus = some "ended" then
    let r1 := endedPhase s meta
    if (trim text).isEmpty then r1
    else
      let r2 := normalPhase cfg r1.1 text meta
      (r2.1, r1.2 ++ r2.2)
  else normalPhase cfg s text meta

/-- The single-mode `tts_complete` handler.  Note the source sends the next
segment without re-assigning `is_sending` (it only logs that it does); when
the queue is empty it clears the flag and, if a session end is pending,
emits the empty-text ended marker. -/
def handleTts (s : SingleState) : SingleState × List SEmission :=
  match s.queue with
  | sg :: rest => ({ s with queue := rest }, [⟨sg.text, sg.meta⟩])
  | [] =>
    let s1 := { s with sending := false }
    if s1.pendingEnd then
      ({ s1 with pendingEnd := false, pendingEndMeta := SMeta.empty },
       [⟨[], { s.pendingEndMeta with sessionStatus := some "ended" }⟩])
    else (s1, [])

/-- The single-mode `control` input handler. -/
def handleControlS (s : SingleState) (cmd : Option String) : SingleState :=
  if cmd = some "reset" then
    { s with queue := [], buffer := [], sending := false,
             pendingEnd := false, pendingEndMeta := SMeta.empty }
  else s

/-- The single-mode `reset` input handler (smart reset). -/
def handleResetS (s : SingleState) (cmd : Option String) (qid : Option String) : SingleState :=
  if cmd = some "resume" then s
  else
    match qid with
    | none =>
      { s with queue := [], buffer := [], sending := false,
               pendingEnd := false, pendingEndMeta := SMeta.empty }
    | some c =>
      let newQ := s.queue.filter (fun sg =>
        sg.meta.questionId = some c || sg.meta.questionId = none)
      let s1 := { s with queue := newQ }
      let s2 :=
        if s1.currentQid = some c then s1
        else { s1 with buffer := [], pendingEnd := false, pendingEndMeta := SMeta.empty }
      let s3 := { s2 with currentQid := some c }
      if s3.queue.isEmpty then { s3 with sending := false } else s3

/-- One inbound event of the single-mode node. -/
inductive SEvent where
  | text (t : Chars) (meta : SMeta)
  | ttsComplete
  | control (cmd : Option String)
  | reset (cmd : Option String) (qid : Option String)
deriving DecidableEq, Repr

/-- One iteration of the single-mode event loop. -/
def stepS (cfg : SingleCfg) (s : SingleState) : SEvent → SingleState × List SEmission
  | .text t meta => handleText cfg s t meta
  | .ttsComplete => handleTts s
  | .control cmd => (handleControlS s cmd, [])
  | .reset cmd qid => (handleResetS s cmd qid, [])

/-- Run the single-mode loop over a list of events, collecting emissions. -/
def runS (cfg : SingleCfg) (s : SingleState) : List SEvent → SingleState × List SEmission
  | [] => (s, [])
  | e :: es =>
    let r := stepS cfg s e
    let r2 := runS cfg r.1 es
    (r2.1, r.2 ++ r2.2)

/-- First element achieving the minimal timestamp.  This definition follows
the amended wording of claim C3: among the candidates, in discovery order,
the first one whose oldest-session timestamp is minimal. -/
def firstMinCand : List (String × Nat) → Option (String × Nat)
  | [] => none
  | x :: xs =>
    match firstMinCand xs with
    | none => some x
    | some y => if y.2 < x.2 then some y else some x

/-- Election as described by the amended claim C3: the first candidate in
discovery order with minimal oldest-session timestamp. -/
def electionByDiscovery (parts : List (String × PState)) : Option String :=
  (firstMinCand (candidatesOf parts)).map (fun c => c.1)

/-! ## Concrete scenario data -/

/-- Conference configuration for the concrete scenarios: ASCII sentence
terminators, `MAX_SEGMENT_LENGTH = 15`, speaker-id removal on (the
conference default), watermarks 30/60 (the defaults). -/
def cfg1 : ConfCfg := ⟨".!?".toList, 15, true, 30, 60⟩

/-- Single-mode configuration of scenario S1: terminators `。！？.!?`,
`MAX_SEGMENT_LENGTH = 100` (`MIN_SEGMENT_LENGTH` is dead in the handler). -/
def cfgS1 : SingleCfg := ⟨"。！？.!?".toList, 100, false⟩

/-- Terminator set with the fallback marks (comma) merged in, as in
punctuation mode (scenario S2). -/
def punctC6 : Chars := "。！？.!?，,".toList

/-- Two sentences of 18 characters each: both exceed `max = 15`, so they are
flushed as two separate segments. -/
def bigText : Chars := "aaaaaaaaaaaaaaaaa.bbbbbbbbbbbbbbbbb.".toList

/-- BufferTelemetry above the high watermark, then a SESSION_START carrying
text: used against claim C1. -/
def evsC1 : List CEvent :=
  [CEvent.bufferTelemetry (some 70),
   CEvent.ptext "p1" "Hello there.".toList (some "started") none 1]

/-- A session with two queued segments, a pause, then a resume while the
first segment is still unacknowledged: used against claim C2. -/
def evsC2pre : List CEvent :=
  [CEvent.ptext "p1" bigText (some "started") none 1,
   CEvent.bufferTelemetry (some 70)]

def evsC2 : List CEvent := evsC2pre ++ [CEvent.bufferTelemetry (some 25)]

/-- Two participants with equal session timestamps and non-empty queues,
made simultaneously electable by a smart reset (which clears `active`
without re-electing): used against claim C3's tie-break. -/
def evsC3pre : List CEvent :=
  [CEvent.ptext "b" bigText (some "started") none 5,
   CEvent.ptext "a" bigText (some "started") none 5,
   CEvent.control (some "reset") (some "Q")]

def evsC3 : List CEvent := evsC3pre ++ [CEvent.ptext "b" [] none none 9]

/-- A session that starts and ends with no text at all: used for claim C4. -/
def evsC4 : List CEvent :=
  [CEvent.ptext "p1" [] (some "started") none 1,
   CEvent.ptext "p1" [] (some "ended") none 2]

/-- Scenario S1 events with prompt acknowledgments: used for claim C5. -/
def evsC5 : List SEvent :=
  [SEvent.text "Hello there. This is ".toList ⟨none, some "started"⟩,
   SEvent.ttsComplete,
   SEvent.text "a test! Final bit".toList ⟨none, none⟩,
   SEvent.ttsComplete,
   SEvent.text [] ⟨none, some "ended"⟩]

/-- A session end arriving while a segment is in flight with an empty queue,
followed by the acknowledgment: triggers the empty pending-session-end
emission (claim C7). -/
def evsC7 : List SEvent :=
  [SEvent.text "Hi.".toList ⟨none, none⟩,
   SEvent.text [] ⟨none, some "ended"⟩,
   SEvent.ttsComplete]

/-- A segment, participant state and conference state used as concrete
witnesses: participant `p1` is active with one unacknowledged segment in
flight, one queued segment, and the gate paused. -/
def segW1 : Segment := ⟨"Hello.".toList, 0, false, none, "started"⟩

def stW1 : PState := ⟨[segW1], [], [⟨0, 1, none, "started"⟩], some 0, true, false⟩

def sW1 : ConfState := ⟨[("p1", stW1)], some "p1", true, 70, 1⟩

/-- Witness state for the selective reset: participant `pA` holds segments
of two different correlation ids and a non-empty tail buffer. -/
def segQ1 : Segment := ⟨"One.".toList, 0, false, some "1", "started"⟩

def segQ2 : Segment := ⟨"Two.".toList, 0, false, some "2", "started"⟩

def stW8 : PState := ⟨[segQ1, segQ2], "tail".toList, [], none, true, false⟩

def sW8 : ConfState := ⟨[("pA", stW8)], some "pA", true, 50, 3⟩

/-- Two tied election candidates, `b` discovered before `a`. -/
def partsW3 : List (String × PState) := [("b", stW1), ("a", stW1)]

/-- Well-formedness predicate for conference queues: every queued segment
passes the conference punctuation-only filter. -/
abbrev CQOk (punct : Chars) (parts : List (String × PState)) : Prop :=
  ∀ e ∈ parts, ∀ sg ∈ e.2.queue, shouldSkipConf punct sg.text = false

/-- Well-formedness predicate for the single-mode state: every queued
segment passes the single-mode filter, and the tail buffer is empty or
non-skippable. -/
abbrev SQOk (punct : Chars) (s : SingleState) : Prop :=
  (∀ sg ∈ s.queue, shouldSkipSingle punct sg.text = false)
  ∧ (s.buffer = [] ∨ shouldSkipSingle punct s.buffer = false)

/-- A well-formed single-mode emission: either the empty pending-session-end
marker or a non-skippable segment. -/
abbrev SEmOk (punct : Chars) (em : SEmission) : Prop :=
  em.text = [] ∨ shouldSkipSingle punct em.text = false

/-- The state and emission produced by one SESSION_START of `p1` carrying
`Hello there.` from the initial conference state (witness data). -/
def w7state : ConfState :=
  ⟨[("p1", ⟨[], [], [⟨0, 1, none, "started"⟩], some 0, true, false⟩)],
   some "p1", false, 0, 1⟩

def w7em : CEmission := ⟨"text_segment_p1", "Hello there.".toList, 0, none, "started"⟩

/-! ## Counterexamples and concrete-scenario theorems -/

/-- Claim C1 counterexample: after BufferTelemetry 70 the gate is paused and
nothing has been emitted; the next event, a SESSION_START for `p1` carrying
text, emits a segment on `text_segment_p1` even though the gate is still
paused afterwards (queue activation is not gated by the pause). -/
theorem C1_counterexample :
    ((runC cfg1 ConfState.init (evsC1.take 1)).map
        (fun r => (r.1.paused, r.2.length)) = some (true, 0))
    ∧ ((runC cfg1 ConfState.init evsC1).map
        (fun r => (r.1.paused, r.2.map (fun e => (e.port, e.text)))) =
        some (true, [("text_segment_p1", "Hello there.".toList)])) := by
  constructor <;> decide

/-- Claim C2 counterexample: after the session start and BufferTelemetry 70,
participant `p1` has `sending = true` (one segment in flight, unacknowledged)
and one more queued segment, and the gate is paused; BufferTelemetry 25 then
emits a second segment on `text_segment_p1` with no intervening
AudioComplete, so two segments are in flight and the resume kick fired while
the active participant was still sending. -/
theorem C2_counterexample :
    ((runC cfg1 ConfState.init evsC2pre).map
        (fun r => ((findPart r.1.parts "p1").map (fun st => (st.sending, st.queue.length)),
                   r.1.paused)) = some (some (true, 1), true))
    ∧ ((runC cfg1 ConfState.init evsC2).map
        (fun r => r.2.map (fun e => e.port)) =
        some ["text_segment_p1", "text_segment_p1"]) := by
  constructor <;> decide

/-- Claim C3 counterexample: after `evsC3pre` the state has `active = none`
and two election candidates with equal oldest timestamps, `b` before `a` in
discovery order; the next event runs election, which picks `b`, although
`a` is the candidate whose name is smallest in ascending order. -/
theorem C3_counterexample :
    ((runC cfg1 ConfState.init evsC3pre).map
        (fun r => (r.1.active, candidatesOf r.1.parts)) =
        some (none, [("b", 5), ("a", 5)]))
    ∧ ((runC cfg1 ConfState.init evsC3).map (fun r => r.1.active) = some (some "b"))
    ∧ "a".toList < "b".toList := by
  refine ⟨by decide, by decide, by decide⟩

/-- Claim C4: evaluating the conference code on a session that starts and
ends with no text.  After SESSION_END the session marker is still pending
(`sessions.length = 1`), nothing was emitted, `active` is `none`, and
`select_oldest_session_queue` returns `none` (the participant is not a
candidate because its queue is empty) — so the empty session is never
elected, its marker is never popped, and no re-election happens, contrary to
the claim. -/
theorem C4_empty_session_stuck :
    (runC cfg1 ConfState.init evsC4).map
        (fun r => (r.1.active, (findPart r.1.parts "p1").map (fun st => st.sessions.length),
                   selectOldest r.1.parts, r.2.length)) =
      some (none, some 1, none, 0) := by
  decide

/-- Claim C5 counterexample: the emitted texts of scenario S1 are not the
claimed list — the second emission is `This isa test!`, not
`This is a test!` (the residual tail is whitespace-stripped, so the space at
the chunk boundary is lost). -/
theorem C5_counterexample :
    ((runS cfgS1 SingleState.init evsC5).2.map (fun e => e.text) =
      ["Hello there.".toList, "This isa test!".toList, "Final bit".toList])
    ∧ ((runS cfgS1 SingleState.init evsC5).2.map (fun e => e.text) ≠
      ["Hello there.".toList, "This is a test!".toList, "Final bit".toList]) := by
  constructor <;> decide

/-- Claim C5 as amended: scenario S1 produces exactly the emissions
`Hello there.` (status started), `This isa test!`, and `Final bit` with
session status ended. -/
theorem C5_amended :
    (runS cfgS1 SingleState.init evsC5).2 =
      [⟨"Hello there.".toList, ⟨none, some "started"⟩⟩,
       ⟨"This isa test!".toList, ⟨none, none⟩⟩,
       ⟨"Final bit".toList, ⟨none, some "ended"⟩⟩] := by
  decide

/-- Claim C6 counterexample: with `max = 15` and comma among the terminators,
`segment_by_punctuation` on `abcdefg, hij, klmnop, qrs.` does not return the
claimed segments. -/
theorem C6_counterexample :
    segmentByPunct punctC6 15 "abcdefg, hij, klmnop, qrs.".toList ≠
      (["abcdefg,".toList, "hij, klmnop,".toList, "qrs.".toList], []) := by
  decide

/-- Claim C6 as amended: the call yields `abcdefg,hij,` and `klmnop,qrs.`
with an empty residual tail — runs are stripped and concatenated without a
separating space, and the accumulator is flushed only when appending the
next run would exceed the maximum. -/
theorem C6_amended :
    segmentByPunct punctC6 15 "abcdefg, hij, klmnop, qrs.".toList =
      (["abcdefg,hij,".toList, "klmnop,qrs.".toList], []) := by
  decide

/-- Claim C7 counterexample: in single mode, a session end arriving while a
segment is in flight with an empty queue later causes an emission whose text
is empty — an emitted segment that is empty and skippable. -/
theorem C7_counterexample :
    ((runS cfgS1 SingleState.init evsC7).2.map (fun e => e.text) = ["Hi.".toList, []])
    ∧ shouldSkipSingle cfgS1.punct [] = true := by
  constructor <;> decide

/-! ## Association-list and election lemmas -/

theorem findPart_map (f : PState → PState) (l : List (String × PState)) (p : String) :
    findPart (l.map (fun e => (e.1, f e.2))) p = (findPart l p).map f := by
  induction l with
  | nil => rfl
  | cons e rest ih =>
    obtain ⟨n, st⟩ := e
    by_cases h : n = p <;> simp [findPart, h, ih]

theorem findPart_mem (l : List (String × PState)) (p : String) (st : PState)
    (h : findPart l p = some st) : (p, st) ∈ l := by
  induction l with
  | nil => simp [findPart] at h
  | cons e rest ih =>
    obtain ⟨n, st0⟩ := e
    by_cases hn : n = p
    · subst hn
      simp [findPart] at h
      simp [h]
    · simp [findPart, hn] at h
      exact List.mem_cons_of_mem _ (ih h)

theorem findPart_setPart_self (l : List (String × PState)) (p : String) (st st' : PState)
    (h : findPart l p = some st) : findPart (setPart l p st') p = some st' := by
  induction l with
  | nil => simp [findPart] at h
  | cons e rest ih =>
    obtain ⟨n, st0⟩ := e
    by_cases hn : n = p
    · subst hn
      simp [findPart, setPart]
    · simp only [findPart, hn, if_false, if_neg hn] at h
      simp [findPart, setPart, hn, ih h]

theorem firstMinCand_ne_none (x : String × Nat) (l : List (String × Nat)) :
    firstMinCand (x :: l) ≠ none := by
  unfold firstMinCand
  cases firstMinCand l with
  | none => simp
  | some y =>
    by_cases h : y.2 < x.2 <;> simp [h]

theorem firstMinCand_cons_none (x : String × Nat) (xs : List (String × Nat))
    (hf : firstMinCand xs = none) : firstMinCand (x :: xs) = some x := by
  unfold firstMinCand
  rw [hf]

theorem firstMinCand_cons_some (x y : String × Nat) (xs : List (String × Nat))
    (hf : firstMinCand xs = some y) :
    firstMinCand (x :: xs) = if y.2 < x.2 then some y else some x := by
  unfold firstMinCand
  rw [hf]

theorem head_sortByTs (l : List (String × Nat)) :
    (sortByTs l).head? = firstMinCand l := by
  induction l with
  | nil => rfl
  | cons x xs ih =>
    show (insertByTs x (sortByTs xs)).head? = _
    cases hs : sortByTs xs with
    | nil =>
      have hf : firstMinCand xs = none := by rw [← ih, hs]; rfl
      rw [firstMinCand_cons_none x xs hf]
      rfl
    | cons y ys =>
      have hf : firstMinCand xs = some y := by rw [← ih, hs]; rfl
      rw [firstMinCand_cons_some x y xs hf]
      show (if x.2 ≤ y.2 then x :: y :: ys else y :: insertByTs x ys).head? = _
      by_cases hxy : x.2 ≤ y.2
      · rw [if_pos hxy, if_neg (Nat.not_lt.mpr hxy)]
        rfl
      · rw [if_neg hxy, if_pos (Nat.lt_of_not_le hxy)]
        rfl

theorem firstMinCand_min (l : List (String × Nat)) (p : String) (ts : Nat)
    (h : firstMinCand l = some (p, ts)) : ∀ e ∈ l, ts ≤ e.2 := by
  induction l generalizing p ts with
  | nil => simp [firstMinCand] at h
  | cons x xs ih =>
    intro e he
    cases hf : firstMinCand xs with
    | none =>
      rw [firstMinCand_cons_none x xs hf] at h
      injection h with h2
      rcases List.mem_cons.mp he with he | he
      · have hx2 : x.2 = ts := by rw [h2]
        rw [he, ← hx2]
      · cases xs with
        | nil => simp at he
        | cons z zs => exact absurd hf (firstMinCand_ne_none z zs)
    | some y =>
      rw [firstMinCand_cons_some x y xs hf] at h
      by_cases hlt : y.2 < x.2
      · rw [if_pos hlt] at h
        injection h with h2
        subst h2
        rcases List.mem_cons.mp he with he | he
        · rw [he]
          exact Nat.le_of_lt hlt
        · exact ih p ts hf e he
      · rw [if_neg hlt] at h
        injection h with h2
        have hx2 : x.2 = ts := by rw [h2]
        rcases List.mem_cons.mp he with he | he
        · rw [he, ← hx2]
        · rw [← hx2]
          exact Nat.le_trans (Nat.le_of_not_lt hlt) (ih y.1 y.2 hf e he)

/-! ## Claim theorems: election, resets, audio-complete totality -/

/-- Claim C3 as amended: when election runs, the chosen participant is the
first, in discovery order, among the candidates (non-empty session list and
non-empty queue) achieving the minimal oldest-session timestamp — ties are
broken by discovery order, not by name.  The second conjunct confirms the
minimality half of the original claim. -/
theorem C3_election_discovery_order (parts : List (String × PState)) :
    selectOldest parts = electionByDiscovery parts
    ∧ ∀ p ts, firstMinCand (candidatesOf parts) = some (p, ts) →
        ∀ e ∈ candidatesOf parts, ts ≤ e.2 := by
  constructor
  · unfold selectOldest electionByDiscovery
    rw [head_sortByTs]
  · intro p ts h e he
    exact firstMinCand_min _ p ts h e he

/-- Witness for C3: on the concrete two-candidate tied state the election
equals the discovery-order choice, and the minimality conjunct applies. -/
theorem C3_election_witness :
    selectOldest partsW3 = electionByDiscovery partsW3
    ∧ firstMinCand (candidatesOf partsW3) = some ("b", 1)
    ∧ (1 : Nat) ≤ ("a", 1).2 :=
  ⟨(C3_election_discovery_order partsW3).1, by decide,
   (C3_election_discovery_order partsW3).2 "b" 1 (by decide) ("a", 1) (by decide)⟩

/-- Claim C9: global reset is idempotent, and a selective reset followed by
a global reset equals the single global reset — stated over the event loop
itself, for every conference state and correlation id. -/
theorem C9_reset_idempotence (cfg : ConfCfg) (s : ConfState) (c : String) :
    runC cfg s [CEvent.control (some "reset") none, CEvent.control (some "reset") none] =
      runC cfg s [CEvent.control (some "reset") none]
    ∧ runC cfg s [CEvent.control (some "reset") (some c), CEvent.control (some "reset") none] =
      runC cfg s [CEvent.control (some "reset") none] := by
  constructor <;> simp [runC, stepC, applyReset, List.map_map, Function.comp]

/-- Claim C8: a reset or cancel with correlation id `c` leaves each
participant's queue equal to the prior segments whose correlation id is `c`
or absent (in order), clears tail buffer and sending flag exactly for
participants that lost a segment, clears `active` and the pause flag, and
emits nothing. -/
theorem C8_selective_reset (cfg : ConfCfg) (s : ConfState) (c : String) (cmd : String)
    (hcmd : cmd = "reset" ∨ cmd = "cancel") (p : String) (st : PState)
    (h : findPart s.parts p = some st) :
    ∃ s2 st2, stepC cfg s (CEvent.control (some cmd) (some c)) = some (s2, [])
      ∧ s2.active = none ∧ s2.paused = false
      ∧ findPart s2.parts p = some st2
      ∧ st2.queue = st.queue.filter (keepSeg c)
      ∧ ((∃ sg ∈ st.queue, keepSeg c sg = false) →
          st2.tailBuf = [] ∧ st2.sending = false) := by
  have hc : (cmd = "reset" ∨ cmd = "cancel") := hcmd
  refine ⟨applyReset s (some c), smartResetPart c st, ?_, rfl, rfl, ?_, rfl, ?_⟩
  · rcases hc with h1 | h1 <;> simp [stepC, h1]
  · show findPart (applyReset s (some c)).parts p = _
    unfold applyReset
    rw [findPart_map (smartResetPart c) s.parts p, h]
    rfl
  · rintro ⟨sg, hmem, hk⟩
    have hpos : 0 < st.queue.countP (fun sg => !keepSeg c sg) := by
      rw [List.countP_pos_iff]
      exact ⟨sg, hmem, by simp [hk]⟩
    unfold smartResetPart
    simp [hpos]

/-- Witness for C8 on the concrete state `sW8` (correlation id 2 discards
the id-1 segment of `pA`). -/
theorem C8_selective_reset_witness :
    (("reset" : String) = "reset" ∨ ("reset" : String) = "cancel")
    ∧ findPart sW8.parts "pA" = some stW8
    ∧ ∃ s2 st2, stepC cfg1 sW8 (CEvent.control (some "reset") (some "2")) = some (s2, [])
        ∧ s2.active = none ∧ s2.paused = false
        ∧ findPart s2.parts "pA" = some st2
        ∧ st2.queue = stW8.queue.filter (keepSeg "2")
        ∧ ((∃ sg ∈ stW8.queue, keepSeg "2" sg = false) →
            st2.tailBuf = [] ∧ st2.sending = false) :=
  ⟨Or.inl rfl, by decide,
   C8_selective_reset cfg1 sW8 "2" "reset" (Or.inl rfl) "pA" stW8 (by decide)⟩

/-- Claim C10: an AudioComplete naming a participant that was never
discovered crashes the handler (the `last_session_end_sent` read raises
KeyError, modelled as `none`); an AudioComplete with no participant field is
logged and dropped; and for any discovered participant the handler is total. -/
theorem C10_audio_complete_requires_discovery (cfg : ConfCfg) (s : ConfState) (p : String)
    (hne : ¬ p = "") (hnotin : findPart s.parts p = none) :
    stepC cfg s (CEvent.audioComplete (some p)) = none
    ∧ stepC cfg s (CEvent.audioComplete none) = some (s, [])
    ∧ ∀ q st, findPart s.parts q = some st →
        (stepC cfg s (CEvent.audioComplete (some q))).isSome = true := by
  refine ⟨?_, rfl, ?_⟩
  · simp [stepC, handleAudioComplete, hne, hnotin]
  · intro q st hq
    by_cases hq0 : q = ""
    · simp [stepC, handleAudioComplete, hq0]
    · simp only [stepC, handleAudioComplete, hq0, hq, if_false, if_neg hq0]
      split
      · simp
      · split
        · simp
        · split
          · simp
          · split <;> simp

/-- Witness for C10 on the one-participant state `sW1`. -/
theorem C10_witness :
    (¬ ("p2" : String) = "") ∧ findPart sW1.parts "p2" = none
    ∧ stepC cfg1 sW1 (CEvent.audioComplete (some "p2")) = none
    ∧ stepC cfg1 sW1 (CEvent.audioComplete none) = some (sW1, [])
    ∧ (stepC cfg1 sW1 (CEvent.audioComplete (some "p1"))).isSome = true := by
  have h := C10_audio_complete_requires_discovery cfg1 sW1 "p2" (by decide) (by decide)
  exact ⟨by decide, by decide, h.1, h.2.1, h.2.2 "p1" stW1 (by decide)⟩

/-- Claim C1 as amended: while the gate is paused, an AudioComplete for a
discovered participant that is not the active participant with the
last-chunk flag set emits nothing (the pause gates only this advancement
path; queue activation on session events and completion re-activation are
not gated, as the counterexample shows). -/
theorem C1_pause_blocks_advance (cfg : ConfCfg) (s : ConfState) (p : String) (st : PState)
    (h : findPart s.parts p = some st) (hpaused : s.paused = true)
    (hnc : s.active = some p → st.lastEndSent = false) :
    ∃ s2, stepC cfg s (CEvent.audioComplete (some p)) = some (s2, []) := by
  by_cases hp0 : p = ""
  · exact ⟨s, by simp [stepC, handleAudioComplete, hp0]⟩
  · by_cases ha : s.active = some p
    · have hl : st.lastEndSent = false := hnc ha
      refine ⟨{ s with parts := setPart s.parts p { st with sending := false } }, ?_⟩
      simp [stepC, handleAudioComplete, hp0, h, hl, ha, hpaused]
    · refine ⟨{ s with parts := setPart s.parts p { st with sending := false } }, ?_⟩
      simp [stepC, handleAudioComplete, hp0, h, ha]

/-- Witness for C1 on the paused state `sW1` (active `p1`, last-chunk flag
clear): the AudioComplete emits nothing. -/
theorem C1_pause_witness :
    (findPart sW1.parts "p1" = some stW1 ∧ sW1.paused = true
      ∧ (sW1.active = some "p1" → stW1.lastEndSent = false))
    ∧ ∃ s2, stepC cfg1 sW1 (CEvent.audioComplete (some "p1")) = some (s2, []) :=
  ⟨⟨by decide, rfl, fun _ => rfl⟩,
   C1_pause_blocks_advance cfg1 sW1 "p1" stW1 (by decide) rfl (fun _ => rfl)⟩

/-- Claim C2 as amended: the immediate resume kick emits the head of the
active participant's queue whenever that queue is non-empty — with no
condition on the sending flag, so a second segment can be put in flight
while one is unacknowledged (the single-in-flight bound of the original
claim does not hold across the resume kick). -/
theorem C2_resume_kick_ignores_sending (cfg : ConfCfg) (s : ConfState) (a : String)
    (st : PState) (sg : Segment) (rest : List Segment) (f : Int)
    (ha : s.active = some a) (hst : findPart s.parts a = some st)
    (hq : st.queue = sg :: rest) (hp : s.paused = true) (hf : f < cfg.lowWater) :
    ∃ s2, stepC cfg s (CEvent.bufferTelemetry (some f)) =
      some (s2, [⟨"text_segment_" ++ a, sg.text, sg.sessionId, sg.questionId,
                  sg.sessionStatus⟩]) := by
  refine ⟨⟨setPart s.parts a ⟨rest, st.tailBuf, st.sessions, st.currentSession, true,
            if sg.isSessionEnd then true else st.lastEndSent⟩,
          s.active, false, f, s.nextSid⟩, ?_⟩
  simp [stepC, handleBufferCtl, sendNextFor, hp, ha, hst, hq, hf]

/-- Witness for C2 on `sW1`: `p1` is still sending, yet BufferTelemetry 25
emits the queued segment. -/
theorem C2_resume_kick_witness :
    (sW1.active = some "p1" ∧ findPart sW1.parts "p1" = some stW1
      ∧ stW1.queue = segW1 :: [] ∧ sW1.paused = true ∧ (25 : Int) < cfg1.lowWater
      ∧ stW1.sending = true)
    ∧ ∃ s2, stepC cfg1 sW1 (CEvent.bufferTelemetry (some 25)) =
        some (s2, [⟨"text_segment_" ++ "p1", segW1.text, segW1.sessionId, segW1.questionId,
                    segW1.sessionStatus⟩]) :=
  ⟨⟨rfl, by decide, rfl, rfl, by decide, rfl⟩,
   C2_resume_kick_ignores_sending cfg1 sW1 "p1" stW1 segW1 [] 25 rfl (by decide) rfl rfl
     (by decide)⟩

/-! ## Stripping lemmas -/

theorem dropWhile_idem (p : Char → Bool) (l : Chars) :
    (l.dropWhile p).dropWhile p = l.dropWhile p := by
  induction l with
  | nil => rfl
  | cons c cs ih =>
    by_cases h : p c = true
    · simp [List.dropWhile_cons, h, ih]
    · simp [List.dropWhile_cons, h]

theorem dropWhile_head_false (p : Char → Bool) (l : Chars) (c : Char) (t : Chars)
    (h : l.dropWhile p = c :: t) : p c = false := by
  induction l with
  | nil => simp at h
  | cons d ds ih =>
    by_cases hd : p d = true
    · rw [List.dropWhile_cons, if_pos hd] at h
      exact ih h
    · rw [List.dropWhile_cons, if_neg hd] at h
      injection h with h1 h2
      rw [← h1]
      exact Bool.not_eq_true _ ▸ eq_false_of_ne_true hd

theorem trim_prefix_dropWhile (l : Chars) : trim l <+: l.dropWhile isWs := by
  have h : List.dropWhile isWs ((l.dropWhile isWs).reverse) <:+ (l.dropWhile isWs).reverse :=
    List.dropWhile_suffix isWs
  have h2 : (List.dropWhile isWs ((l.dropWhile isWs).reverse)).reverse <+:
      ((l.dropWhile isWs).reverse).reverse := List.reverse_prefix.mpr h
  rw [List.reverse_reverse] at h2
  exact h2

theorem trim_head_not_ws (l : Chars) (c : Char) (t : Chars) (h : trim l = c :: t) :
    isWs c = false := by
  have hpre : trim l <+: l.dropWhile isWs := trim_prefix_dropWhile l
  rw [h] at hpre
  obtain ⟨w, hw⟩ := hpre
  exact dropWhile_head_false isWs l c (t ++ w) (by rw [← hw]; rfl)

theorem trim_idem (l : Chars) : trim (trim l) = trim l := by
  have hrev : (trim l).reverse = List.dropWhile isWs (l.dropWhile isWs).reverse := by
    unfold trim
    rw [List.reverse_reverse]
  have h1 : (trim l).reverse.dropWhile isWs = (trim l).reverse := by
    rw [hrev, dropWhile_idem]
  have h2 : (trim l).dropWhile isWs = trim l := by
    cases h : trim l with
    | nil => rfl
    | cons c t =>
      have hc : isWs c = false := trim_head_not_ws l c t h
      simp [List.dropWhile_cons, hc]
  show (((trim l).dropWhile isWs).reverse.dropWhile isWs).reverse = trim l
  rw [h2, h1, List.reverse_reverse]

theorem shouldSkipSingle_trim (punct : Chars) (t : Chars) :
    shouldSkipSingle punct (trim t) = shouldSkipSingle punct t := by
  unfold shouldSkipSingle
  rw [trim_idem]

/-! ## Single-mode well-formedness invariant -/

theorem markLastEnded_texts (q : List SSeg) :
    (markLastEnded q).map (fun sg => sg.text) = q.map (fun sg => sg.text) := by
  induction q with
  | nil => rfl
  | cons x xs ih =>
    cases xs with
    | nil => rfl
    | cons y ys =>
      show x.text :: (markLastEnded (y :: ys)).map (fun sg => sg.text) = _
      rw [ih]
      rfl

theorem markLastEnded_ok (punct : Chars) (q : List SSeg)
    (hq : ∀ sg ∈ q, shouldSkipSingle punct sg.text = false) :
    ∀ sg ∈ markLastEnded q, shouldSkipSingle punct sg.text = false := by
  intro sg hsg
  have : sg.text ∈ (markLastEnded q).map (fun sg => sg.text) := List.mem_map_of_mem _ hsg
  rw [markLastEnded_texts] at this
  obtain ⟨sg0, h0, htext⟩ := List.mem_map.mp this
  rw [← htext]
  exact hq sg0 h0

theorem sendHead_ok (punct : Chars) (s : SingleState) (hs : SQOk punct s) :
    SQOk punct (sendHead s).1 ∧ ∀ em ∈ (sendHead s).2, SEmOk punct em := by
  obtain ⟨hq, hb⟩ := hs
  unfold sendHead
  cases hmq : s.queue with
  | nil => exact ⟨⟨hq, hb⟩, by simp⟩
  | cons sg rest =>
    refine ⟨⟨?_, hb⟩, ?_⟩
    · intro z hz
      exact hq z (hmq ▸ List.mem_cons_of_mem sg hz)
    · intro em hem
      rcases List.mem_singleton.mp hem with rfl
      exact Or.inr (hq sg (hmq ▸ List.mem_cons_self sg rest))

theorem endedFlush_ok (punct : Chars) (s : SingleState) (meta : SMeta)
    (hs : SQOk punct s) : SQOk punct (endedFlush s meta) := by
  obtain ⟨hq, hb⟩ := hs
  unfold endedFlush
  by_cases hbe : (trim s.buffer).isEmpty
  · simpa [hbe] using ⟨hq, hb⟩
  · simp only [hbe, Bool.false_eq_true, if_false]
    refine ⟨?_, Or.inl rfl⟩
    intro sg hsg
    rcases List.mem_append.mp hsg with hsg | hsg
    · exact hq sg hsg
    · rcases List.mem_singleton.mp hsg with rfl
      have hbne : ¬ s.buffer = [] := by
        intro hnil
        rw [hnil] at hbe
        exact hbe rfl
      have hbok : shouldSkipSingle punct s.buffer = false := hb.resolve_left hbne
      show shouldSkipSingle punct (trim s.buffer) = false
      rw [shouldSkipSingle_trim]
      exact hbok

theorem endedDispatch_ok (punct : Chars) (s2 : SingleState) (meta : SMeta)
    (hs : SQOk punct s2) :
    SQOk punct (endedDispatch s2 meta).1
      ∧ ∀ em ∈ (endedDispatch s2 meta).2, SEmOk punct em := by
  unfold endedDispatch
  by_cases hsend : s2.sending = true
  · simp only [hsend, Bool.not_true, Bool.false_eq_true, if_false]
    by_cases hqe : s2.queue.isEmpty = true
    · simp only [hqe, if_true]
      exact ⟨⟨hs.1, hs.2⟩, by simp⟩
    · simp only [hqe, Bool.false_eq_true, if_false]
      exact ⟨hs, by simp⟩
  · have hsf : s2.sending = false := eq_false_of_ne_true hsend
    simp only [hsf, Bool.not_false, if_true]
    exact sendHead_ok punct s2 hs

theorem endedPhase_ok (punct : Chars) (s : SingleState) (meta : SMeta)
    (hs : SQOk punct s) :
    SQOk punct (endedPhase s meta).1 ∧ ∀ em ∈ (endedPhase s meta).2, SEmOk punct em := by
  have h1 := endedFlush_ok punct s meta hs
  have hs2 : SQOk punct { endedFlush s meta with
      queue := markLastEnded (endedFlush s meta).queue } :=
    ⟨markLastEnded_ok punct _ h1.1, h1.2⟩
  exact endedDispatch_ok punct _ meta hs2

theorem updateQid_ok (punct : Chars) (s : SingleState) (meta : SMeta)
    (hs : SQOk punct s) : SQOk punct (updateQid s meta) := by
  unfold updateQid
  cases meta.questionId with
  | none => exact hs
  | some q => exact ⟨hs.1, hs.2⟩

theorem ingestText_ok (cfg : SingleCfg) (s : SingleState) (text : Chars) (meta : SMeta)
    (hs : SQOk cfg.punct s) : SQOk cfg.punct (ingestText cfg s text meta) := by
  obtain ⟨hq, hb⟩ := hs
  unfold ingestText
  constructor
  · intro sg hsg
    rcases List.mem_append.mp hsg with hsg | hsg
    · exact hq sg hsg
    · obtain ⟨t, ht, rfl⟩ := List.mem_map.mp hsg
      have := (List.mem_filter.mp ht).2
      simpa using this
  · by_cases he : (segmentByPunct cfg.punct cfg.maxLen
        (s.buffer ++ (if cfg.removeSpeaker then removeSpeakerId text else text))).2.isEmpty
    · exact Or.inl (by simp [he])
    · by_cases hsk : shouldSkipSingle cfg.punct (segmentByPunct cfg.punct cfg.maxLen
          (s.buffer ++ (if cfg.removeSpeaker then removeSpeakerId text else text))).2 = true
      · exact Or.inl (by simp [he, hsk])
      · exact Or.inr (by simp [he, hsk, eq_false_of_ne_true hsk])

theorem normalPhase_ok (cfg : SingleCfg) (s : SingleState) (text : Chars) (meta : SMeta)
    (hs : SQOk cfg.punct s) :
    SQOk cfg.punct (normalPhase cfg s text meta).1
      ∧ ∀ em ∈ (normalPhase cfg s text meta).2, SEmOk cfg.punct em := by
  have hs2 : SQOk cfg.punct (ingestText cfg (updateQid s meta) text meta) :=
    ingestText_ok cfg _ text meta (updateQid_ok cfg.punct s meta hs)
  unfold normalPhase
  by_cases hsend : (ingestText cfg (updateQid s meta) text meta).sending = true
  · simp only [hsend, Bool.not_true, Bool.false_eq_true, if_false]
    exact ⟨hs2, by simp⟩
  · have hsf := eq_false_of_ne_true hsend
    simp only [hsf, Bool.not_false, if_true]
    exact sendHead_ok cfg.punct _ hs2

theorem handleText_ok (cfg : SingleCfg) (s : SingleState) (text : Chars) (meta : SMeta)
    (hs : SQOk cfg.punct s) :
    SQOk cfg.punct (handleText cfg s text meta).1
      ∧ ∀ em ∈ (handleText cfg s text meta).2, SEmOk cfg.punct em := by
  unfold handleText
  by_cases hended : meta.sessionStatus = some "ended"
  · simp only [hended, if_pos]
    have h1 := endedPhase_ok cfg.punct s meta hs
    by_cases hte : (trim text).isEmpty = true
    · simp only [hte, if_true]
      exact h1
    · simp only [hte, Bool.false_eq_true, if_false]
      have h2 := normalPhase_ok cfg (endedPhase s meta).1 text meta h1.1
      refine ⟨h2.1, ?_⟩
      intro em hem
      rcases List.mem_append.mp hem with hem | hem
      · exact h1.2 em hem
      · exact h2.2 em hem
  · simp only [hended, if_neg, if_false]
    exact normalPhase_ok cfg s text meta hs

theorem handleTts_ok (punct : Chars) (s : SingleState) (hs : SQOk punct s) :
    SQOk punct (handleTts s).1 ∧ ∀ em ∈ (handleTts s).2, SEmOk punct em := by
  obtain ⟨hq, hb⟩ := hs
  unfold handleTts
  cases hmq : s.queue with
  | cons sg rest =>
    refine ⟨⟨?_, hb⟩, ?_⟩
    · intro z hz
      exact hq z (hmq ▸ List.mem_cons_of_mem sg hz)
    · intro em hem
      rcases List.mem_singleton.mp hem with rfl
      exact Or.inr (hq sg (hmq ▸ List.mem_cons_self sg rest))
  | nil =>
    by_cases hpe : s.pendingEnd = true
    · simp only [hpe, if_true]
      refine ⟨⟨by simp, hb⟩, ?_⟩
      intro em hem
      rcases List.mem_singleton.mp hem with rfl
      exact Or.inl rfl
    · simp only [hpe, Bool.false_eq_true, if_false]
      exact ⟨⟨by simp, hb⟩, by simp⟩

theorem handleControlS_ok (punct : Chars) (s : SingleState) (cmd : Option String)
    (hs : SQOk punct s) : SQOk punct (handleControlS s cmd) := by
  unfold handleControlS
  by_cases hc : cmd = some "reset"
  · simp only [hc, if_pos]
    exact ⟨by simp, Or.inl rfl⟩
  · simp only [hc, if_neg, if_false]
    exact hs

theorem handleResetS_ok (punct : Chars) (s : SingleState) (cmd : Option String)
    (qid : Option String) (hs : SQOk punct s) : SQOk punct (handleResetS s cmd qid) := by
  obtain ⟨hq, hb⟩ := hs
  unfold handleResetS
  by_cases hres : cmd = some "resume"
  · simp only [hres, if_pos]
    exact ⟨hq, hb⟩
  · simp only [hres, if_neg, if_false]
    cases qid with
    | none => exact ⟨by simp, Or.inl rfl⟩
    | some c =>
      have hq2 : ∀ sg ∈ s.queue.filter (fun sg =>
          sg.meta.questionId = some c || sg.meta.questionId = none),
          shouldSkipSingle punct sg.text = false :=
        fun sg hsg => hq sg (List.mem_of_mem_filter hsg)
      by_cases hcq : s.currentQid = some c
      · simp only [hcq, if_pos]
        by_cases hqe : (s.queue.filter (fun sg =>
            sg.meta.questionId = some c || sg.meta.questionId = none)).isEmpty = true
        · simp only [hqe, if_true]
          exact ⟨hq2, hb⟩
        · simp only [hqe, Bool.false_eq_true, if_false]
          exact ⟨hq2, hb⟩
      · simp only [hcq, if_neg, if_false]
        by_cases hqe : (s.queue.filter (fun sg =>
            sg.meta.questionId = some c || sg.meta.questionId = none)).isEmpty = true
        · simp only [hqe, if_true]
          exact ⟨hq2, Or.inl rfl⟩
        · simp only [hqe, Bool.false_eq_true, if_false]
          exact ⟨hq2, Or.inl rfl⟩

theorem stepS_ok (cfg : SingleCfg) (s : SingleState) (e : SEvent) (hs : SQOk cfg.punct s) :
    SQOk cfg.punct (stepS cfg s e).1 ∧ ∀ em ∈ (stepS cfg s e).2, SEmOk cfg.punct em := by
  cases e with
  | text t meta => exact handleText_ok cfg s t meta hs
  | ttsComplete => exact handleTts_ok cfg.punct s hs
  | control cmd => exact ⟨handleControlS_ok cfg.punct s cmd hs, by simp [stepS]⟩
  | reset cmd qid => exact ⟨handleResetS_ok cfg.punct s cmd qid hs, by simp [stepS]⟩

theorem runS_ok (cfg : SingleCfg) (events : List SEvent) (s : SingleState)
    (hs : SQOk cfg.punct s) :
    SQOk cfg.punct (runS cfg s events).1
      ∧ ∀ em ∈ (runS cfg s events).2, SEmOk cfg.punct em := by
  induction events generalizing s with
  | nil => exact ⟨hs, by simp [runS]⟩
  | cons e es ih =>
    have h1 := stepS_ok cfg s e hs
    have h2 := ih (stepS cfg s e).1 h1.1
    refine ⟨h2.1, ?_⟩
    intro em hem
    show SEmOk cfg.punct em
    have : em ∈ (stepS cfg s e).2 ++ (runS cfg (stepS cfg s e).1 es).2 := by
      simpa [runS] using hem
    rcases List.mem_append.mp this with hem2 | hem2
    · exact h1.2 em hem2
    · exact h2.2 em hem2

/-! ## Conference well-formedness invariant -/

theorem CQOk_setPart (punct : Chars) (parts : List (String × PState)) (p : String)
    (st : PState) (hp : CQOk punct parts)
    (hst : ∀ sg ∈ st.queue, shouldSkipConf punct sg.text = false) :
    CQOk punct (setPart parts p st) := by
  induction parts with
  | nil => intro e he; simp [setPart] at he
  | cons e0 rest ih =>
    have hrest : CQOk punct rest := fun e he => hp e (List.mem_cons_of_mem e0 he)
    intro e he
    unfold setPart at he
    by_cases h1 : e0.1 = p
    · rw [if_pos h1] at he
      rcases List.mem_cons.mp he with he | he
      · rw [he]
        exact hst
      · exact ih hrest e he
    · rw [if_neg h1] at he
      rcases List.mem_cons.mp he with he | he
      · rw [he]
        exact hp e0 (List.mem_cons_self e0 rest)
      · exact ih hrest e he

theorem findPart_queue_ok (punct : Chars) (parts : List (String × PState)) (p : String)
    (st : PState) (hp : CQOk punct parts) (h : findPart parts p = some st) :
    ∀ sg ∈ st.queue, shouldSkipConf punct sg.text = false :=
  hp (p, st) (findPart_mem parts p st h)

theorem getD_queue_ok (punct : Chars) (parts : List (String × PState)) (p : String)
    (hp : CQOk punct parts) :
    ∀ sg ∈ ((findPart parts p).getD PState.init).queue,
      shouldSkipConf punct sg.text = false := by
  cases hf : findPart parts p with
  | none => simp [PState.init]
  | some st =>
    intro sg hsg
    exact findPart_queue_ok punct parts p st hp hf sg hsg

theorem ensureInit_ok (punct : Chars) (s : ConfState) (p : String)
    (hp : CQOk punct s.parts) : CQOk punct (ensureInit s p).parts := by
  unfold ensureInit
  cases hf : findPart s.parts p with
  | some st => exact hp
  | none =>
    intro e he
    rcases List.mem_append.mp he with he | he
    · exact hp e he
    · rcases List.mem_singleton.mp he with rfl
      simp [PState.init]

theorem kickStart_ok (punct : Chars) (s : ConfState) (p : String)
    (hp : CQOk punct s.parts) :
    CQOk punct (kickStart s p).1.parts
      ∧ ∀ em ∈ (kickStart s p).2, shouldSkipConf punct em.text = false := by
  unfold kickStart
  split
  · exact ⟨hp, by simp⟩
  · rename_i st hf
    have hqok := findPart_queue_ok punct s.parts p st hp hf
    split
    · exact ⟨hp, by simp⟩
    · rename_i sg rest hq
      refine ⟨?_, ?_⟩
      · apply CQOk_setPart punct s.parts p _ hp
        intro z hz
        exact hqok z (hq ▸ List.mem_cons_of_mem sg hz)
      · intro em hem
        rcases List.mem_singleton.mp hem with rfl
        exact hqok sg (hq ▸ List.mem_cons_self sg rest)

theorem sendNextFor_ok (punct : Chars) (s : ConfState) (p : String)
    (hp : CQOk punct s.parts) :
    CQOk punct (sendNextFor s p).1.parts
      ∧ ∀ em ∈ (sendNextFor s p).2, shouldSkipConf punct em.text = false := by
  unfold sendNextFor
  split
  · exact ⟨hp, by simp⟩
  · rename_i st hf
    have hqok := findPart_queue_ok punct s.parts p st hp hf
    split
    · exact ⟨hp, by simp⟩
    · rename_i sg rest hq
      refine ⟨?_, ?_⟩
      · apply CQOk_setPart punct s.parts p _ hp
        intro z hz
        exact hqok z (hq ▸ List.mem_cons_of_mem sg hz)
      · intro em hem
        rcases List.mem_singleton.mp hem with rfl
        exact hqok sg (hq ▸ List.mem_cons_self sg rest)

theorem tryActivate_ok (punct : Chars) (s : ConfState) (hp : CQOk punct s.parts) :
    CQOk punct (tryActivate s).1.parts
      ∧ ∀ em ∈ (tryActivate s).2, shouldSkipConf punct em.text = false := by
  unfold tryActivate
  cases s.active with
  | some a => exact ⟨hp, by simp⟩
  | none =>
    cases selectOldest s.parts with
    | none => exact ⟨hp, by simp⟩
    | some p => exact kickStart_ok punct { s with active := some p } p hp

theorem completeSession_ok (punct : Chars) (s : ConfState) (p : String)
    (hp : CQOk punct s.parts) :
    CQOk punct (completeSession s p).1.parts
      ∧ ∀ em ∈ (completeSession s p).2, shouldSkipConf punct em.text = false := by
  unfold completeSession
  split
  · rename_i st hf
    have hp1 : CQOk punct (setPart s.parts p { st with sessions := st.sessions.tail }) := by
      apply CQOk_setPart punct s.parts p _ hp
      intro z hz
      exact findPart_queue_ok punct s.parts p st hp hf z hz
    dsimp only
    split
    · exact ⟨hp1, by simp⟩
    · rename_i q hsel
      exact kickStart_ok punct _ q hp1
  · dsimp only
    split
    · exact ⟨hp, by simp⟩
    · rename_i q hsel
      exact kickStart_ok punct _ q hp

theorem handleBufferCtl_ok (cfg : ConfCfg) (s : ConfState) (pct : Int)
    (hp : CQOk cfg.punct s.parts) :
    CQOk cfg.punct (handleBufferCtl cfg s pct).1.parts
      ∧ ∀ em ∈ (handleBufferCtl cfg s pct).2, shouldSkipConf cfg.punct em.text = false := by
  unfold handleBufferCtl
  dsimp only
  split
  · exact ⟨hp, by simp⟩
  · split
    · split
      · exact ⟨hp, by simp⟩
      · rename_i a ha
        split
        · exact ⟨hp, by simp⟩
        · split
          · exact ⟨hp, by simp⟩
          · exact sendNextFor_ok cfg.punct _ a hp
    · exact ⟨hp, by simp⟩

theorem enqueueSegs_ok (punct : Chars) (sid : Nat) (qid : Option String) (status : String)
    (segs : List Chars) (q : List Segment)
    (hq : ∀ sg ∈ q, shouldSkipConf punct sg.text = false) :
    ∀ sg ∈ enqueueSegs punct sid qid status segs q,
      shouldSkipConf punct sg.text = false := by
  intro sg hsg
  unfold enqueueSegs at hsg
  rcases List.mem_append.mp hsg with h | h
  · exact hq sg h
  · obtain ⟨t, ht, rfl⟩ := List.mem_map.mp h
    have := (List.mem_filter.mp ht).2
    simpa using this

theorem markLastEnd_texts (q : List Segment) :
    (markLastEnd q).map (fun sg => sg.text) = q.map (fun sg => sg.text) := by
  induction q with
  | nil => rfl
  | cons x xs ih =>
    cases xs with
    | nil => rfl
    | cons y ys =>
      show x.text :: (markLastEnd (y :: ys)).map (fun sg => sg.text) = _
      rw [ih]
      rfl

theorem markLastEnd_ok (punct : Chars) (q : List Segment)
    (hq : ∀ sg ∈ q, shouldSkipConf punct sg.text = false) :
    ∀ sg ∈ markLastEnd q, shouldSkipConf punct sg.text = false := by
  intro sg hsg
  have : sg.text ∈ (markLastEnd q).map (fun sg => sg.text) := List.mem_map_of_mem _ hsg
  rw [markLastEnd_texts] at this
  obtain ⟨sg0, h0, htext⟩ := List.mem_map.mp this
  rw [← htext]
  exact hq sg0 h0

theorem handleStart_ok (cfg : ConfCfg) (s : ConfState) (p : String) (text : Chars)
    (qid : Option String) (ts : Nat) (hp : CQOk cfg.punct s.parts) :
    CQOk cfg.punct (handleStart cfg s p text qid ts).1.parts
      ∧ ∀ em ∈ (handleStart cfg s p text qid ts).2,
          shouldSkipConf cfg.punct em.text = false := by
  unfold handleStart
  dsimp only
  apply tryActivate_ok
  apply CQOk_setPart cfg.punct _ p _ (ensureInit_ok cfg.punct s p hp)
  apply enqueueSegs_ok
  exact getD_queue_ok cfg.punct (ensureInit s p).parts p (ensureInit_ok cfg.punct s p hp)

theorem handleChunk_ok (cfg : ConfCfg) (s : ConfState) (p : String) (text : Chars)
    (hp : CQOk cfg.punct s.parts) :
    CQOk cfg.punct (handleChunk cfg s p text).1.parts
      ∧ ∀ em ∈ (handleChunk cfg s p text).2,
          shouldSkipConf cfg.punct em.text = false := by
  unfold handleChunk
  dsimp only
  cases ((findPart (ensureInit s p).parts p).getD PState.init).currentSession with
  | none => exact ⟨ensureInit_ok cfg.punct s p hp, by simp⟩
  | some sid =>
    apply tryActivate_ok
    apply CQOk_setPart cfg.punct _ p _ (ensureInit_ok cfg.punct s p hp)
    apply enqueueSegs_ok
    exact getD_queue_ok cfg.punct (ensureInit s p).parts p (ensureInit_ok cfg.punct s p hp)

theorem handleSessionEnd_ok (cfg : ConfCfg) (s : ConfState) (p : String)
    (hp : CQOk cfg.punct s.parts) :
    CQOk cfg.punct (handleSessionEnd cfg s p).1.parts
      ∧ ∀ em ∈ (handleSessionEnd cfg s p).2,
          shouldSkipConf cfg.punct em.text = false := by
  have hp1 : CQOk cfg.punct (ensureInit s p).parts := ensureInit_ok cfg.punct s p hp
  have hq0 := getD_queue_ok cfg.punct (ensureInit s p).parts p hp1
  unfold handleSessionEnd
  dsimp only
  cases ((findPart (ensureInit s p).parts p).getD PState.init).currentSession with
  | none => exact ⟨hp1, by simp⟩
  | some sid =>
    apply tryActivate_ok
    apply CQOk_setPart cfg.punct _ p _ hp1
    by_cases hbe : (trim ((findPart (ensureInit s p).parts p).getD PState.init).tailBuf).isEmpty = true
    · simp only [hbe, if_true]
      exact markLastEnd_ok cfg.punct _ hq0
    · simp only [hbe, Bool.false_eq_true, if_false]
      by_cases hsk : shouldSkipConf cfg.punct
          (trim ((findPart (ensureInit s p).parts p).getD PState.init).tailBuf) = true
      · simp only [hsk, if_true]
        exact hq0
      · simp only [hsk, Bool.false_eq_true, if_false]
        intro sg hsg
        rcases List.mem_append.mp hsg with h | h
        · exact hq0 sg h
        · rcases List.mem_singleton.mp h with rfl
          exact eq_false_of_ne_true hsk

theorem handleAudioComplete_ok (punct : Chars) (s : ConfState) (p? : Option String)
    (hp : CQOk punct s.parts) :
    ∀ s2 ems, handleAudioComplete s p? = some (s2, ems) →
      CQOk punct s2.parts ∧ ∀ em ∈ ems, shouldSkipConf punct em.text = false := by
  intro s2 ems h
  unfold handleAudioComplete at h
  split at h
  · injection h with h2
    injection h2 with ha hb
    rw [← ha, ← hb]
    exact ⟨hp, by simp⟩
  · rename_i p
    split at h
    · injection h with h2
      injection h2 with ha hb
      rw [← ha, ← hb]
      exact ⟨hp, by simp⟩
    · rename_i hp0
      split at h
      · exact absurd h (by simp)
      · rename_i st hf
        dsimp only at h
        have hqok := findPart_queue_ok punct s.parts p st hp hf
        have hp2 : CQOk punct (setPart s.parts p { st with sending := false }) := by
          apply CQOk_setPart punct s.parts p _ hp
          intro z hz
          exact hqok z hz
        split at h
        · have hcs := completeSession_ok punct
            ⟨setPart s.parts p { st with sending := false }, s.active, s.paused,
              s.fill, s.nextSid⟩ p hp2
          split at h
          · rename_i st2 hf2
            injection h with h2
            injection h2 with ha hb
            rw [← ha, ← hb]
            refine ⟨?_, hcs.2⟩
            apply CQOk_setPart punct _ p _ hcs.1
            intro z hz
            exact findPart_queue_ok punct _ p st2 hcs.1 hf2 z hz
          · injection h with h2
            injection h2 with ha hb
            rw [← ha, ← hb]
            exact ⟨hcs.1, hcs.2⟩
        · split at h
          · injection h with h2
            injection h2 with ha hb
            rw [← ha, ← hb]
            exact ⟨hp2, by simp⟩
          · split at h
            · injection h with h2
              injection h2 with ha hb
              rw [← ha, ← hb]
              exact ⟨hp2, by simp⟩
            · split at h
              · injection h with h2
                injection h2 with ha hb
                rw [← ha, ← hb]
                exact ⟨hp2, by simp⟩
              · rename_i sg rest hq
                injection h with h2
                injection h2 with ha hb
                rw [← ha, ← hb]
                refine ⟨?_, ?_⟩
                · apply CQOk_setPart punct _ p _ hp2
                  intro z hz
                  exact hqok z (hq ▸ List.mem_cons_of_mem sg hz)
                · intro em hem
                  rcases List.mem_singleton.mp hem with rfl
                  exact hqok sg (hq ▸ List.mem_cons_self sg rest)

theorem applyReset_ok (punct : Chars) (s : ConfState) (qid : Option String)
    (hp : CQOk punct s.parts) : CQOk punct (applyReset s qid).parts := by
  unfold applyReset
  cases qid with
  | none =>
    intro e he
    obtain ⟨e0, he0, rfl⟩ := List.mem_map.mp he
    simp [PState.init]
  | some c =>
    intro e he
    obtain ⟨e0, he0, rfl⟩ := List.mem_map.mp he
    intro sg hsg
    unfold smartResetPart at hsg
    have : sg ∈ e0.2.queue := List.mem_of_mem_filter hsg
    exact hp e0 he0 sg this

theorem stepC_ok (cfg : ConfCfg) (s : ConfState) (e : CEvent)
    (hp : CQOk cfg.punct s.parts) :
    ∀ s2 ems, stepC cfg s e = some (s2, ems) →
      CQOk cfg.punct s2.parts ∧ ∀ em ∈ ems, shouldSkipConf cfg.punct em.text = false := by
  intro s2 ems h
  cases e with
  | ptext port text status qid ts =>
    simp only [stepC] at h
    split at h
    · split at h
      · injection h with h2
        have hh := handleStart_ok cfg s port text qid ts hp
        rw [h2] at hh
        exact hh
      · split at h
        · injection h with h2
          have hh := handleSessionEnd_ok cfg s port hp
          rw [h2] at hh
          exact hh
        · injection h with h2
          have hh := handleChunk_ok cfg s port text hp
          rw [h2] at hh
          exact hh
    · injection h with h2
      injection h2 with ha hb
      rw [← ha, ← hb]
      exact ⟨hp, by simp⟩
  | audioComplete p? =>
    simp only [stepC] at h
    exact handleAudioComplete_ok cfg.punct s p? hp s2 ems h
  | bufferTelemetry pct =>
    cases pct with
    | none =>
      simp only [stepC] at h
      injection h with h2
      injection h2 with ha hb
      rw [← ha, ← hb]
      exact ⟨hp, by simp⟩
    | some v =>
      simp only [stepC] at h
      injection h with h2
      have hh := handleBufferCtl_ok cfg s v hp
      rw [h2] at hh
      exact hh
  | control cmd qid =>
    simp only [stepC] at h
    split at h
    · injection h with h2
      injection h2 with ha hb
      rw [← ha, ← hb]
      exact ⟨applyReset_ok cfg.punct s qid hp, by simp⟩
    · injection h with h2
      injection h2 with ha hb
      rw [← ha, ← hb]
      exact ⟨hp, by simp⟩

theorem runC_ok (cfg : ConfCfg) (events : List CEvent) (s : ConfState)
    (hp : CQOk cfg.punct s.parts) :
    ∀ s2 ems, runC cfg s events = some (s2, ems) →
      CQOk cfg.punct s2.parts ∧ ∀ em ∈ ems, shouldSkipConf cfg.punct em.text = false := by
  induction events generalizing s with
  | nil =>
    intro s2 ems h
    simp only [runC] at h
    injection h with h2
    injection h2 with ha hb
    rw [← ha, ← hb]
    exact ⟨hp, by simp⟩
  | cons e es ih =>
    intro s2 ems h
    simp only [runC] at h
    cases hstep : stepC cfg s e with
    | none => rw [hstep] at h; simp at h
    | some r =>
      rw [hstep] at h
      simp only [Option.some_bind] at h
      have h1 := stepC_ok cfg s e hp r.1 r.2 (by rw [hstep])
      cases hrun : runC cfg r.1 es with
      | none => rw [hrun] at h; simp at h
      | some r2 =>
        rw [hrun] at h
        simp only [Option.map_some'] at h
        have h2 := ih r.1 h1.1 r2.1 r2.2 (by rw [hrun])
        injection h with h3
        injection h3 with ha hb
        rw [← ha, ← hb]
        refine ⟨h2.1, ?_⟩
        intro em hem
        rcases List.mem_append.mp hem with hem | hem
        · exact h1.2 em hem
        · exact h2.2 em hem

/-- Claim C7 as amended: in conference mode every segment emitted on a
`text_segment` port is non-skippable under the conference filter (hence
non-empty); in single mode every emission is either non-skippable under the
single-mode filter or is the empty-text pending-session-end marker.  The
original claim fails because of that empty marker (and because each mode
enforces only its own filter: the conference filter does not treat
digit-only text as skippable). -/
theorem C7_wellformed :
    (∀ (cfg : ConfCfg) (events : List CEvent) (s2 : ConfState) (ems : List CEmission),
        runC cfg ConfState.init events = some (s2, ems) →
        ∀ em ∈ ems, shouldSkipConf cfg.punct em.text = false)
    ∧ ∀ (cfg : SingleCfg) (events : List SEvent),
        ∀ em ∈ (runS cfg SingleState.init events).2,
          em.text = [] ∨ shouldSkipSingle cfg.punct em.text = false := by
  constructor
  · intro cfg events s2 ems h em hem
    have h0 : CQOk cfg.punct ConfState.init.parts := by
      intro e he
      simp [ConfState.init] at he
    exact (runC_ok cfg events ConfState.init h0 s2 ems h).2 em hem
  · intro cfg events em hem
    have h0 : SQOk cfg.punct SingleState.init := by
      constructor
      · intro sg hsg
        simp [SingleState.init] at hsg
      · exact Or.inl rfl
    exact (runS_ok cfg events SingleState.init h0).2 em hem

/-- Witness for C7: the segment emitted by a concrete SESSION_START is
non-skippable, and the first emission of the `evsC7` single-mode trace is
non-skippable too. -/
theorem C7_wellformed_witness :
    (runC cfg1 ConfState.init
        [CEvent.ptext "p1" "Hello there.".toList (some "started") none 1]
        = some (w7state, [w7em]))
    ∧ shouldSkipConf cfg1.punct w7em.text = false
    ∧ ((⟨"Hi.".toList, ⟨none, none⟩⟩ : SEmission).text = []
        ∨ shouldSkipSingle cfgS1.punct
            ((⟨"Hi.".toList, ⟨none, none⟩⟩ : SEmission)).text = false) := by
  refine ⟨by decide, ?_, ?_⟩
  · exact C7_wellformed.1 cfg1
      [CEvent.ptext "p1" "Hello there.".toList (some "started") none 1]
      w7state [w7em] (by decide) w7em (by simp)
  · exact C7_wellformed.2 cfgS1 evsC7 ⟨"Hi.".toList, ⟨none, none⟩⟩ (by decide)

end Studio
